import Mathlib

/-!
Verification development for the offer acquisition and normalization
pipeline of the via_demo repository.

The embedding covers:
  - the remote tool client and response normalizer in
    src/app/api/demo/_lib/mcp.ts (mcpPost, mcpToolsList, pickSearchTool,
    extractPayload, formatPrice, normaliseProducts, mcpSearchProducts);
  - the two-pass orchestrator in src/unnamed/part_002 (toTerms, scoreTitle,
    pickBestProduct and the POST acceptance loop);
  - the sequential orchestrator in src/app/api/demo/thread/route.ts
    (matchesKeyWord, isUsableLiveProduct and the POST acceptance loop).

JSON payloads are modelled as an untyped tree.  JavaScript null and
undefined are conflated into one null value: every code path in scope
treats them identically (optional chaining, the nullish operator and
truthiness tests).  The platform primitive JSON.parse is passed in as an
oracle of type String -> Option Json.  Promise rejections / thrown
exceptions are modelled with the Except monad: a network call is an
oracle value of type Transport that either carries a response or a
thrown error message.
-/

/-- Untyped JSON-ish value tree (JS null and undefined conflated). -/
inductive Json where
  | null
  | bool (b : Bool)
  | num (q : ℚ)
  | str (s : String)
  | arr (xs : List Json)
  | obj (fields : List (String × Json))

/-- Property access `j?.k`: null on non-objects and missing keys. -/
def Json.get (j : Json) (k : String) : Json :=
  match j with
  | .obj fields =>
    match fields.find? (fun kv => kv.1 == k) with
    | some kv => kv.2
    | none => .null
  | _ => .null

/-- The nullish coalescing operator `a ?? b`. -/
def jsCoalesce (a b : Json) : Json :=
  match a with
  | .null => b
  | _ => a

/-- JS truthiness of a JSON value (no NaN in the rational model). -/
def jsTruthy : Json → Bool
  | .null => false
  | .bool b => b
  | .num q => !(q == 0)
  | .str s => !(s == "")
  | .arr _ => true
  | .obj _ => true

/-- Truthiness of `v.length`: array / string length, a `length` field on
objects, and undefined (falsy) on everything else. -/
def jsLengthTruthy : Json → Bool
  | .arr xs => !xs.isEmpty
  | .str s => !(s == "")
  | .obj fields => jsTruthy (Json.get (.obj fields) "length")
  | _ => false

/-- Index access `v?.[0]`: the head of an array, the "0" key of an
object, null otherwise. -/
def jsIdx0 : Json → Json
  | .arr (x :: _) => x
  | .obj fields => Json.get (.obj fields) "0"
  | _ => .null

/-- Equality test `v === "..."` against a string literal. -/
def jsEqStr (j : Json) (s : String) : Bool :=
  match j with
  | .str t => t == s
  | _ => false

/-- Math.abs on the rational model of JS numbers. -/
def jsAbs (q : ℚ) : ℚ := if q < 0 then -q else q

/-- Math.round: floor of x + 1/2. -/
def jsRound (q : ℚ) : ℤ := ⌊q + 1 / 2⌋

/-- Fuelled decimal digits of a rational in [0, 1), used only by the
String() coercion of a number (a dead branch for every claim). -/
def ratFracDigits : Nat → ℚ → String
  | 0, _ => ""
  | n + 1, q =>
    if q == 0 then ""
    else
      let d := ⌊q * 10⌋
      toString d ++ ratFracDigits n (q * 10 - (d : ℚ))

/-- Decimal rendering of a nonnegative rational. -/
def ratDecNN (q : ℚ) : String :=
  let ip := ⌊q⌋
  let frac := q - (ip : ℚ)
  if frac == 0 then toString ip else toString ip ++ "." ++ ratFracDigits 20 frac

/-- Decimal rendering of a rational, JS-number style. -/
def ratDec (q : ℚ) : String :=
  if q < 0 then "-" ++ ratDecNN (-q) else ratDecNN q

mutual
/-- String() coercion of a JSON value (null and undefined conflated,
rendered as "undefined": the in-scope code only reaches this coercion
through missing fields, which are undefined in JS). -/
def jsCoerceStr : Json → String
  | .null => "undefined"
  | .bool true => "true"
  | .bool false => "false"
  | .num q => ratDec q
  | .str s => s
  | .arr xs => String.intercalate "," (jsCoerceList xs)
  | .obj _ => "[object Object]"

/-- Elementwise String() coercion inside an array (null elements render
as the empty string, per Array.prototype.toString). -/
def jsCoerceList : List Json → List String
  | [] => []
  | Json.null :: rest => "" :: jsCoerceList rest
  | j :: rest => jsCoerceStr j :: jsCoerceList rest
end

/-- The coercion `String(v || "")`: falsy values become the empty
string, everything else is String()-coerced. -/
def jsStringOrEmpty (j : Json) : String :=
  if jsTruthy j then jsCoerceStr j else ""

/-- Whether `pat` is a prefix of `l` (character lists). -/
def chHasPref (pat l : List Char) : Bool :=
  match pat, l with
  | [], _ => true
  | _ :: _, [] => false
  | a :: as, b :: bs => a == b && chHasPref as bs

/-- Whether `pat` occurs inside `l` (character lists). -/
def chIncl (pat : List Char) : List Char → Bool
  | [] => chHasPref pat []
  | c :: rest => chHasPref pat (c :: rest) || chIncl pat rest

/-- JS String.prototype.includes. -/
def strIncludes (s pat : String) : Bool :=
  chIncl pat.data s.data

/-- The boolean or `a || b` on strings: first non-empty. -/
def strOr (a b : String) : String :=
  if a == "" then b else a

/-- JS whitespace characters relevant to trim (exotic Unicode spaces are
out of scope for every payload under audit). -/
def isJsWs (c : Char) : Bool :=
  c == ' ' || c == '\t' || c == '\n' || c == '\r' || c == '\x0b' || c == '\x0c'

/-- JS String.prototype.trim (list-based so the kernel can evaluate it). -/
def strTrim (s : String) : String :=
  ⟨((s.data.dropWhile isJsWs).reverse.dropWhile isJsWs).reverse⟩

/-- List-based model of String.prototype.toLowerCase (ASCII-faithful). -/
def strLower (s : String) : String := ⟨s.data.map Char.toLower⟩

/-- List-based model of String.prototype.toUpperCase (ASCII-faithful). -/
def strUpper (s : String) : String := ⟨s.data.map Char.toUpper⟩

/-- JS String.prototype.startsWith. -/
def strStarts (s pat : String) : Bool := chHasPref pat.data s.data

/-- JS String.prototype.endsWith. -/
def strEnds (s pat : String) : Bool := chHasPref pat.data.reverse s.data.reverse

/-- A case-insensitive regex literal test `/pat/i.test(n)` for a plain
lower-case word `pat`. -/
def reTestCI (n : String) (pat : String) : Bool :=
  strIncludes (strLower n) pat

example : strIncludes "commuter helmet, matte black" "helmet" = true := by decide
example : strIncludes "sun hat" "helmet" = false := by decide
example : reTestCI "Search_Shop_Catalog" "search" = true := by decide

/-! ## src/app/api/demo/_lib/mcp.ts : number parsing and price formatting -/

/-- Decimal digit test. -/
def isDigitCh (c : Char) : Bool := '0' ≤ c && c ≤ '9'

/-- Value of a digit string. -/
def digitsVal (cs : List Char) : ℕ :=
  cs.foldl (fun a c => a * 10 + (c.toNat - '0'.toNat)) 0

/-- Value of a decimal literal with integer part `ip` and fraction part `fp`. -/
def decLitVal (ip fp : List Char) : ℚ :=
  (digitsVal ip : ℚ) + (digitsVal fp : ℚ) / (10 : ℚ) ^ fp.length

/-- The JS Number() coercion of a string, restricted to optionally signed
decimal literals; none stands for NaN.  The empty (or all-whitespace)
string coerces to 0, as in JS.  Exponent, hex and Infinity forms are not
reached by any payload in scope and map to none. -/
def jsNumber (s : String) : Option ℚ :=
  let t := strTrim s
  if t == "" then some 0
  else
    let signed : Bool × List Char :=
      match t.data with
      | '-' :: r => (true, r)
      | '+' :: r => (false, r)
      | r => (false, r)
    let ip := signed.2.takeWhile isDigitCh
    let rest := signed.2.dropWhile isDigitCh
    let val? : Option ℚ :=
      match rest with
      | [] => if ip.isEmpty then none else some (decLitVal ip [])
      | '.' :: fp =>
        if fp.all isDigitCh && !(ip.isEmpty && fp.isEmpty) then some (decLitVal ip fp)
        else none
      | _ => none
    val?.map (fun v => if signed.1 then -v else v)

/-- toCurrencySymbol from mcp.ts: symbol for the three known currencies,
empty otherwise. -/
def toCurrencySymbol (code : String) : String :=
  let c := strUpper code
  if c == "GBP" then "£"
  else if c == "EUR" then "€"
  else if c == "USD" then "$"
  else ""

/-- Two-digit zero-padded rendering of k % 100, as produced by toFixed(2). -/
def twoDigits (k : ℕ) : String :=
  ⟨[Nat.digitChar (k / 10 % 10), Nat.digitChar (k % 10)]⟩

/-- Number.prototype.toFixed(2) on a nonnegative rational. -/
def toFixed2NN (q : ℚ) : String :=
  let m := (⌊q * 100 + 1 / 2⌋).toNat
  toString (m / 100) ++ "." ++ twoDigits (m % 100)

/-- Number.prototype.toFixed(2) (negative values render with a leading
minus sign, per the ECMAScript algorithm). -/
def toFixed2 (q : ℚ) : String :=
  if q < 0 then "-" ++ toFixed2NN (-q) else toFixed2NN q

/-- The amount rendering of formatPrice: an integer string when the value
is within 1e-9 of an integer, otherwise exactly two decimals. -/
def jsAmountStr (q : ℚ) : String :=
  if jsAbs (q - (jsRound q : ℚ)) < 1 / 1000000000 then toString (jsRound q)
  else toFixed2 q

/-- The currency-prefix step of formatPrice, applied to the parsed amount
and the normalised currency code. -/
def formatAmount (q : ℚ) (currency : String) : String :=
  let sym := toCurrencySymbol currency
  if sym ≠ "" then sym ++ jsAmountStr q
  else if currency ≠ "" then currency ++ " " ++ jsAmountStr q
  else jsAmountStr q

/-- formatPrice from mcp.ts: coerce the currency with String(x || "")
followed by toUpperCase().trim(); coerce the amount (number as is, string
through Number(), anything else NaN); empty string when the amount is not
a finite number. -/
def formatPrice (amountRaw currencyRaw : Json) : String :=
  let num? : Option ℚ :=
    match amountRaw with
    | .num q => some q
    | .str s => jsNumber s
    | _ => none
  match num? with
  | none => ""
  | some q => formatAmount q (strTrim (strUpper (jsStringOrEmpty currencyRaw)))

/-! ## src/app/api/demo/_lib/mcp.ts : tool selection and normalizer -/

/-- The search-tool test `/search/i.test(n)`. -/
def isSearchName (n : String) : Bool := reTestCI n "search"

/-- The strong test: a search name that also matches
`/(catalog|product|products|shop)/i`. -/
def isStrongName (n : String) : Bool :=
  isSearchName n &&
    (reTestCI n "catalog" || reTestCI n "product" || reTestCI n "products" ||
      reTestCI n "shop")

/-- pickSearchTool from mcp.ts, on the list of tool names: the exact
well-known name if present, else the first strong match, else the first
name matching search, else none. -/
def pickSearchTool (names : List String) : Option String :=
  if "search_shop_catalog" ∈ names then some "search_shop_catalog"
  else
    match names.find? isStrongName with
    | some n => some n
    | none =>
      match names.find? isSearchName with
      | some n => some n
      | none => none

/-- The normalized product record (McpProduct in mcp.ts). -/
structure McpProduct where
  title : String
  priceText : String
  imageUrl : String
  productUrl : String
deriving DecidableEq, Repr

/-- firstNonEmptyString from mcp.ts: the first value that is a string
with non-empty trim, returned trimmed; "" otherwise. -/
def firstNonEmptyString : List Json → String
  | [] => ""
  | v :: rest =>
    match v with
    | .str s => if strTrim s ≠ "" then strTrim s else firstNonEmptyString rest
    | _ => firstNonEmptyString rest

/-- The single-trailing-slash strip `storeBaseUrl.replace(/\/$/, "")`. -/
def stripTrailingSlash (s : String) : String :=
  if strEnds s "/" then s.dropRight 1 else s

/-- The product-URL resolution steps at the end of the normalizer loop:
root-relative paths resolve against the base, a bare handle builds
base/products/handle, and the base itself is the final fallback. -/
def resolveProductUrl (url0 handle storeBaseUrl : String) : String :=
  let u1 :=
    if url0 ≠ "" ∧ strStarts url0 "/" = true then stripTrailingSlash storeBaseUrl ++ url0
    else url0
  let u2 :=
    if (u1 = "" ∨ strStarts u1 "http" = false) ∧ handle ≠ "" then
      stripTrailingSlash storeBaseUrl ++ "/products/" ++ handle
    else u1
  if u2 = "" ∨ strStarts u2 "http" = false then storeBaseUrl else u2

/-- The per-candidate extraction of the normalizer loop body: unwrap a
product wrapper, require a title, then run the price / image / URL
cascades. -/
def extractProduct (storeBaseUrl : String) (p : Json) : Option McpProduct :=
  let prod := jsCoalesce (p.get "product") p
  let title := firstNonEmptyString [prod.get "title", prod.get "name"]
  if title = "" then none
  else
    let prMin := (prod.get "price_range").get "min"
    let prCur := (prod.get "price_range").get "currency"
    let v0 :=
      match prod.get "variants" with
      | .arr (x :: _) => x
      | _ => Json.null
    let vPrice := v0.get "price"
    let vCur := v0.get "currency"
    let gqlAmount := ((prod.get "priceRange").get "minVariantPrice").get "amount"
    let gqlCur := ((prod.get "priceRange").get "minVariantPrice").get "currencyCode"
    let priceText :=
      strOr (formatPrice prMin prCur)
        (strOr (formatPrice vPrice vCur)
          (strOr (formatPrice gqlAmount gqlCur)
            (firstNonEmptyString
              [prod.get "priceText", prod.get "price", prod.get "price_string",
                prod.get "amount"])))
    let imageUrl :=
      firstNonEmptyString
        [prod.get "image_url", prod.get "imageUrl", prod.get "image",
          prod.get "image_url", (prod.get "featuredImage").get "url",
          (prod.get "featured_image").get "url",
          (jsIdx0 (prod.get "images")).get "url", v0.get "image_url"]
    let url0 := firstNonEmptyString [prod.get "url", prod.get "productUrl", prod.get "product_url"]
    let handle := firstNonEmptyString [prod.get "handle"]
    some ⟨title, priceText, imageUrl, resolveProductUrl url0 handle storeBaseUrl⟩

/-- The nullish-coalescing cascade for the candidate container, folded
left to right; the trailing element stands for the final `?? []`. -/
def firstNonNull : List Json → Json
  | [] => Json.arr []
  | j :: rest =>
    match j with
    | .null => firstNonNull rest
    | _ => j

/-- normaliseProducts from mcp.ts: pick the first non-nullish container
among .products, .items, .results, .data.products, .data and the payload
itself; treat a non-array container as empty; extract each candidate. -/
def normaliseProducts (payload : Json) (storeBaseUrl : String) : List McpProduct :=
  let candidates :=
    firstNonNull
      [payload.get "products", payload.get "items", payload.get "results",
        (payload.get "data").get "products", payload.get "data", payload]
  let arr :=
    match candidates with
    | .arr xs => xs
    | _ => []
  arr.filterMap (extractProduct storeBaseUrl)

/-! ## src/app/api/demo/_lib/mcp.ts : transport, tools list, search -/

/-- The outcome of one network exchange: either the underlying fetch (or
body read) rejects — a connection failure or the timeout-triggered abort
— or a response arrives with its ok flag, status and body text. -/
inductive Transport where
  | thrown (msg : String)
  | resp (ok : Bool) (status : Nat) (text : String)

/-- The result record of mcpPost. -/
structure PostResult where
  ok : Bool
  status : Nat
  json : Json
  text : String

/-- mcpPost: the try/finally block has no catch clause, so a rejection
of fetch propagates to the caller (modelled as Except.error); a response
body is parsed with JSON.parse, null on failure (the parse oracle). -/
def mcpPost (parse : String → Option Json) : Transport → Except String PostResult
  | .thrown msg => .error msg
  | .resp ok status text => .ok ⟨ok, status, (parse text).getD .null, text⟩

/-- mcpToolsList: awaits mcpPost without a try/catch (so a thrown
transport error propagates); returns the empty list unless the response
is ok and json.result.tools is truthy. -/
def mcpToolsList (parse : String → Option Json) (t : Transport) : Except String Json := do
  let r ← mcpPost parse t
  let tools := (r.json.get "result").get "tools"
  if !r.ok || !jsTruthy tools then return .arr []
  return tools

/-- extractPayload from mcp.ts: unwrap result ?? self, prefer an explicit
json content block, else parse the first non-empty text block, else fall
back to the container or a text wrapper object. -/
def extractPayload (parse : String → Option Json) (anyJson : Json) : Json :=
  let container := jsCoalesce (anyJson.get "result") anyJson
  match container.get "content" with
  | .arr [] => container
  | .arr cs =>
    let jsonBlocks :=
      cs.filter fun c =>
        jsTruthy c && (jsEqStr (c.get "type") "json" || jsEqStr (c.get "type") "application/json")
    let j0 :=
      match jsonBlocks with
      | b :: _ => b.get "json"
      | [] => Json.null
    if jsTruthy j0 then j0
    else
      let textParts :=
        (cs.filterMap fun c =>
            match c.get "text" with
            | .str s => some (strTrim s)
            | _ => none).filter
          (fun s => s ≠ "")
      match textParts with
      | [] => container
      | t0 :: _ =>
        match parse t0 with
        | some j => if jsTruthy j then j else Json.obj [("text", .str (String.intercalate "\n" textParts))]
        | none => Json.obj [("text", .str (String.intercalate "\n" textParts))]
  | _ => container

/-- The result record of mcpSearchProducts. -/
structure SearchRes where
  ok : Bool
  products : List McpProduct
  toolUsed : Option String
  error : Option String
deriving DecidableEq, Repr

/-- The argument-shape attempt loop of mcpSearchProducts: one mcpPost per
attempt (a thrown transport error propagates), skip on a non-ok or
unparseable response or an isError flag, return the first attempt whose
normalized product list is non-empty.  The oracle list carries the
outcome of each successive tools/call exchange. -/
def searchAttempts (parse : String → Option Json) (storeBaseUrl : String) :
    List Transport → Except String (List McpProduct)
  | [] => .ok []
  | t :: rest => do
    let r ← mcpPost parse t
    if !r.ok || !jsTruthy r.json then searchAttempts parse storeBaseUrl rest
    else
      let payload := extractPayload parse r.json
      let container := jsCoalesce (r.json.get "result") r.json
      if jsTruthy (container.get "isError") then searchAttempts parse storeBaseUrl rest
      else
        let products := normaliseProducts payload storeBaseUrl
        if products.isEmpty then searchAttempts parse storeBaseUrl rest
        else .ok products

/-- The name extraction `tools.map(t => t.name)` over the elements of
the tools array: `t.name` is a plain property access, so a null (or
undefined) element makes it throw a TypeError, which propagates.  On any
other element the access is safe; a non-string name value can match
neither the exact well-known tool name nor any search pattern and is
modelled as the empty string. -/
def mapToolNames : List Json → Except String (List String)
  | [] => .ok []
  | Json.null :: _ => .error "TypeError: Cannot read properties of null (reading name)"
  | t :: rest =>
    match mapToolNames rest with
    | .error e => .error e
    | .ok ns =>
      .ok ((match t.get "name" with
        | .str s => s
        | _ => "") :: ns)

/-- mcpSearchProducts: tools discovery, tool selection (tools.map throws
a TypeError when the truthy tools value is not an array, and property
access throws when a tools entry is null), then the attempt loop.  The
query string only travels over the wire and does not influence the
modelled result. -/
def mcpSearchProducts (parse : String → Option Json) (storeBaseUrl _query : String)
    (toolsT : Transport) (callTs : List Transport) : Except String SearchRes := do
  let tools ← mcpToolsList parse toolsT
  if !jsLengthTruthy tools then return ⟨false, [], none, some "No tools/list response"⟩
  let names ←
    match tools with
    | .arr xs => mapToolNames xs
    | _ => Except.error "TypeError: tools.map is not a function"
  match pickSearchTool names with
  | none => return ⟨false, [], none, some "No search tool found"⟩
  | some toolName =>
    let products ← searchAttempts parse storeBaseUrl callTs
    if products.isEmpty then return ⟨false, [], some toolName, some "Search returned no products"⟩
    else return ⟨true, products, some toolName, none⟩

/-! ## src/unnamed/part_002 : intent plan, term cleaning, scoring -/

/-- The intent plan fields that flow into scoring.  The remaining fields
of the source type (category, core item, search query, broadcast text)
feed only query construction and display and are modelled elsewhere or
out of scope. -/
structure IntentPlan where
  required_terms : List String
  preferred_terms : List String
  excluded_terms : List String
deriving DecidableEq, Repr

/-- Characters kept by the term-cleaning regex `[^a-z0-9\s-]`. -/
def isTermKeep (c : Char) : Bool :=
  ('a' ≤ c && c ≤ 'z') || ('0' ≤ c && c ≤ '9') || c == '-'

/-- Whitespace-run collapse `replace(/\s+/g, " ")` with a previous-was-
whitespace flag. -/
def collapseWsGo : Bool → List Char → List Char
  | _, [] => []
  | prevWs, c :: rest =>
    if isJsWs c then
      if prevWs then collapseWsGo true rest else ' ' :: collapseWsGo true rest
    else c :: collapseWsGo false rest

/-- Whitespace-run collapse on a character list. -/
def collapseWs (cs : List Char) : List Char := collapseWsGo false cs

/-- The per-term cleaning pipeline of toTerms: lower-case, replace
non [a-z0-9 whitespace hyphen] with a space, collapse whitespace, trim,
cap at 32 characters. -/
def cleanTerm (s : String) : String :=
  let step1 := (strLower s).data.map fun c => if isTermKeep c || isJsWs c then c else ' '
  let step2 := collapseWs step1
  let step3 := ((step2.dropWhile isJsWs).reverse.dropWhile isJsWs).reverse
  ⟨step3.take 32⟩

/-- The accumulation loop of toTerms: skip empty or already-seen cleaned
terms, stop once max terms have been pushed. -/
def toTermsGo (max : Nat) : List String → List String → List String
  | [], out => out
  | raw :: rest, out =>
    let t := cleanTerm raw
    if t = "" ∨ t ∈ out then toTermsGo max rest out
    else
      let out2 := out ++ [t]
      if max ≤ out2.length then out2 else toTermsGo max rest out2

/-- toTerms from part_002 (undefined term arrays are modelled as the
empty list, which Array.isArray maps them to). -/
def toTerms (items : List String) (max : Nat) : List String :=
  toTermsGo max items []

/-- scoreTitle from part_002: pair of (score, rejected).  Reject on an
empty lowered title; in a strict pass reject when any required term is
missing; reject when an excluded term is present and no required term
is; otherwise +6 per required match, +2 per preferred match, −7 per
excluded match. -/
def scoreTitle (title : String) (plan : IntentPlan) (strictRequired : Bool) : Int × Bool :=
  let t := strLower title
  if t = "" then (-999, true)
  else
    let required := toTerms plan.required_terms 8
    let preferred := toTerms plan.preferred_terms 10
    let excluded := toTerms plan.excluded_terms 12
    if strictRequired && !required.isEmpty && required.any (fun r => !strIncludes t r) then
      (-999, true)
    else
      let hasAnyRequired :=
        if required.isEmpty then false else required.any fun r => strIncludes t r
      let hasExcluded := excluded.any fun x => strIncludes t x
      if hasExcluded && !hasAnyRequired then (-999, true)
      else
        let s1 := required.foldl (fun s r => if strIncludes t r then s + 6 else s) (0 : Int)
        let s2 := preferred.foldl (fun s p => if strIncludes t p then s + 2 else s) s1
        let s3 := excluded.foldl (fun s x => if strIncludes t x then s - 7 else s) s2
        (s3, false)

/-- The fold of pickBestProduct: keep the best non-rejected candidate,
strictly higher score wins (ties keep the earlier candidate). -/
def pickBestGo (plan : IntentPlan) (strict : Bool) :
    List McpProduct → Option McpProduct → Int → Option McpProduct
  | [], best, _ => best
  | p :: rest, best, bestScore =>
    let s := scoreTitle p.title plan strict
    if s.2 then pickBestGo plan strict rest best bestScore
    else if s.1 > bestScore then pickBestGo plan strict rest (some p) s.1
    else pickBestGo plan strict rest best bestScore

/-- pickBestProduct from part_002. -/
def pickBestProduct (products : List McpProduct) (plan : IntentPlan) (strict : Bool) :
    Option McpProduct :=
  if products.isEmpty then none
  else pickBestGo plan strict products none (-999)

/-! ## src/unnamed/part_002 : the two-pass acceptance loop of POST -/

/-- The accepted-offer fields that the loop fills deterministically from
the chosen product.  The random offer id, the arrival delay and the
reliability label, price text echo and policy block are presentation
fields with no bearing on any claim (the id is built from
Math.random). -/
structure OfferLite where
  sellerId : String
  headline : String
  imageUrl : String
  productUrl : String
deriving DecidableEq, Repr

/-- offerFromMcpProduct, restricted to the deterministic fields: the
image falls back to a placeholder and the URL to "#". -/
def mkOffer (sellerId : String) (p : McpProduct) : OfferLite :=
  ⟨sellerId, p.title,
    if p.imageUrl = "" then "https://placehold.co/600x400/png?text=Product" else p.imageUrl,
    if p.productUrl = "" then "#" else p.productUrl⟩

/-- One entry of Promise.allSettled over the contacted stores: a
rejected promise, or a fulfilled search result for a store id.  The
positional index only feeds the arrival-delay presentation field and is
omitted. -/
inductive Settled where
  | rejected
  | fulfilled (storeId : String) (r : SearchRes)
deriving DecidableEq

/-- One debug.storeResults entry, reduced to the fields the claims
quantify over: which store (none for a rejected promise) and which pass
pushed it. -/
structure DiagEntry where
  storeId : Option String
  strict : Bool
deriving DecidableEq, Repr

/-- The diagnostics entry a settled item contributes in a pass. -/
def diagEntryOf (strict : Bool) : Settled → DiagEntry
  | .rejected => ⟨none, strict⟩
  | .fulfilled sid _ => ⟨some sid, strict⟩

/-- The mutable state of the acceptance loop: accumulated offers and
debug entries. -/
structure OrchState where
  offers : List OfferLite
  diags : List DiagEntry
deriving DecidableEq, Repr

/-- The body of the inner loop of POST for one settled item: push one
debug entry, skip non-ok or empty results, else accept the scorer's
best candidate or — when the scorer rejects every candidate — the first
raw product. -/
def stepItem (strict : Bool) (plan : Option IntentPlan) (item : Settled) (st : OrchState) :
    OrchState :=
  let st1 : OrchState := ⟨st.offers, st.diags ++ [diagEntryOf strict item]⟩
  match item with
  | .rejected => st1
  | .fulfilled sid r =>
    if !r.ok || r.products.isEmpty then st1
    else
      match r.products with
      | [] => st1
      | p0 :: _ =>
        let planForScoring := plan.getD ⟨[], [], []⟩
        let best := (pickBestProduct r.products planForScoring strict).getD p0
        ⟨st1.offers ++ [mkOffer sid best], st1.diags⟩

/-- One pass of the acceptance loop: stop at three accepted offers
(checked at the top of each iteration, before the debug push), else
process the item. -/
def runPass (strict : Bool) (plan : Option IntentPlan) :
    List Settled → OrchState → OrchState
  | [], st => st
  | item :: rest, st =>
    if 3 ≤ st.offers.length then st
    else runPass strict plan rest (stepItem strict plan item st)

/-- The two-pass loop of POST: a strict pass over all settled results,
then — only when fewer than three offers were accepted — a relaxed pass
over the same settled results. -/
def runTwoPass (plan : Option IntentPlan) (results : List Settled) : OrchState :=
  let st1 := runPass true plan results ⟨[], []⟩
  if 3 ≤ st1.offers.length then st1 else runPass false plan results st1

/-- Occurrences of a store id among the debug entries. -/
def diagCountFor (sid : String) (diags : List DiagEntry) : Nat :=
  diags.countP fun d => d.storeId == some sid

/-- Occurrences of a store id among the fulfilled settled results. -/
def fulfilledCountFor (sid : String) (results : List Settled) : Nat :=
  results.countP fun it =>
    match it with
    | .fulfilled s _ => s == sid
    | .rejected => false

/-! ## src/app/api/demo/thread/route.ts : the sequential acceptance loop -/

/-- matchesKeyWord from thread/route.ts: true with no key word, else a
case-insensitive title containment test. -/
def matchesKeyWord (title : String) (key : Option String) : Bool :=
  match key with
  | none => true
  | some k => strIncludes (strLower title) (strLower k)

/-- isUsableLiveProduct from thread/route.ts: non-empty title, a real
image (none of the placeholder host), and a real product URL. -/
def isUsableLiveProduct (p : McpProduct) : Bool :=
  !(p.title == "") &&
    !(p.imageUrl == "") && !(strIncludes p.imageUrl "placehold.co") &&
    !(p.productUrl == "") && !(p.productUrl == "#")

/-- The sequential store loop of POST in thread/route.ts: one awaited
mcpSearchProducts call per store.  A thrown call (the Except.error case)
propagates out of the loop to the surrounding catch, abandoning the
accumulated offers; a failure captured as a value (ok = false or no
products) merely skips the store.  Stops at three accepted offers. -/
def seqGo (key : Option String) :
    List (String × Except String SearchRes) → List OfferLite →
      Except String (List OfferLite)
  | [], acc => .ok acc
  | (sid, out) :: rest, acc =>
    if 3 ≤ acc.length then .ok acc
    else
      match out with
      | .error e => .error e
      | .ok r =>
        if !r.ok || r.products.isEmpty then seqGo key rest acc
        else
          match r.products with
          | [] => seqGo key rest acc
          | p0 :: _ =>
            let matched := (r.products.find? fun p => matchesKeyWord p.title key).getD p0
            if !isUsableLiveProduct matched then seqGo key rest acc
            else seqGo key rest (acc ++ [mkOffer sid matched])

/-- The whole acquisition loop over the candidate stores, starting from
no accepted offers. -/
def seqAcquire (stores : List (String × Except String SearchRes)) (key : Option String) :
    Except String (List OfferLite) :=
  seqGo key stores []

/-- What thread.offers holds after the try/catch around the loop: the
live offers when the loop finished with at least one of them, the
initial mock offers when it finished empty-handed or an exception
reached the catch (which only records debug.fatal). -/
def threadOffers (mock : List OfferLite) (stores : List (String × Except String SearchRes))
    (key : Option String) : List OfferLite :=
  match seqAcquire stores key with
  | .ok live => if 1 ≤ live.length then live else mock
  | .error _ => mock

/-! ## Concrete fixtures -/

/-- The parse oracle for bodies that are not valid JSON. -/
def parseNone : String → Option Json := fun _ => none

/-- An intent plan requiring the term helmet. -/
def planHelmet : IntentPlan := ⟨["helmet"], [], []⟩

/-- An intent plan requiring helmet and preferring visor. -/
def planVisor : IntentPlan := ⟨["helmet"], ["visor"], []⟩

/-- The intent plan of the excluded-term scenario. -/
def planSunHat : IntentPlan := ⟨["helmet"], [], ["hat"]⟩

/-- A fully usable normalized helmet product. -/
def helmetProd : McpProduct :=
  ⟨"Commuter Helmet, Matte Black", "£45", "https://img.example/helmet.jpg",
    "https://cycling-b.example/products/commuter-helmet"⟩

/-- A usable product whose title lacks every required term. -/
def visorProd : McpProduct :=
  ⟨"sun visor", "", "https://img.example/visor.jpg", "https://x.example/p/visor"⟩

/-- A successful search result carrying the helmet product. -/
def helmetRes : SearchRes := ⟨true, [helmetProd], some "search_shop_catalog", none⟩

/-- A successful search result carrying only the visor product. -/
def visorRes : SearchRes := ⟨true, [visorProd], some "search_shop_catalog", none⟩

/-- A pool of one fulfilled endpoint. -/
def resultsOneStore : List Settled := [.fulfilled "storeB" helmetRes]

/-- The offer the loop builds from the helmet product. -/
def offerHelmetB : OfferLite :=
  ⟨"storeB", "Commuter Helmet, Matte Black", "https://img.example/helmet.jpg",
    "https://cycling-b.example/products/commuter-helmet"⟩

/-- A titled candidate without price or image fields. -/
def titledItem : Json := .obj [("title", .str "Commuter Helmet, Matte Black")]

/-- Another titled candidate. -/
def otherItem : Json := .obj [("title", .str "Road Gloves")]

/-- The products-edges connection shape of the spec scenario: the one
titled item sits inside products.edges[0].node. -/
def edgesPayload : Json :=
  .obj [("products",
    .obj [("edges",
      .arr [.obj [("node",
        .obj [("title", .str "Commuter Helmet, Matte Black"),
              ("price_range", .obj [("min", .str "45.00"), ("currency", .str "GBP")])])]])])]

/-- The base URL of the scenario store. -/
def baseB : String := "https://cycling-b.example"

/-- The normalization of titledItem against baseB. -/
def helmetNormB : McpProduct := ⟨"Commuter Helmet, Matte Black", "", "", baseB⟩

/-! ## C10 : the second pass re-accepts an endpoint that already contributed -/

/-- C10: with one endpoint whose product passes the strict pass, pass 1
accepts one offer (fewer than three), so pass 2 runs over the same
settled results and accepts the same product from the same endpoint
again: the final offer list holds two offers with the same seller id,
built from one endpoint within one acquisition run. -/
theorem twoPass_duplicate_same_seller :
    (runTwoPass (some planHelmet) resultsOneStore).offers = [offerHelmetB, offerHelmetB] ∧
    offerHelmetB.sellerId = "storeB" := by decide

/-! ## C9 : diagnostics entries per endpoint -/

/-- C9 counterexample: diagnostics with both passes running record the
same contacted endpoint twice (once per pass), not exactly once as
claimed — the strict pass accepted an offer from storeB and the relaxed
pass still re-recorded (and re-accepted) it. -/
theorem twoPass_diag_twice :
    diagCountFor "storeB" (runTwoPass (some planHelmet) resultsOneStore).diags = 2 := by decide

/-! ## C4 counterexample : the orchestrator-level fallback -/

/-- C4 counterexample: in the strict pass, when the scorer rejects every
candidate of an endpoint, the loop falls back to the first raw product
(pickBestProduct(...) || r.products[0]), so a title without the required
term helmet is selected as best at the orchestrator level — here the
title sun visor, which even scores positively on preferred terms in
non-strict scoring. -/
theorem strict_pass_fallback_nonmatching :
    (runPass true (some planVisor) [.fulfilled "s1" visorRes] ⟨[], []⟩).offers =
      [⟨"s1", "sun visor", "https://img.example/visor.jpg", "https://x.example/p/visor"⟩] ∧
    strIncludes (strLower "sun visor") "helmet" = false ∧
    (scoreTitle "sun visor" planVisor false).1 = 2 := by decide

/-! ## C3 : the container cascade of the normalizer -/

/-- C3 counterexample: a products-edges payload whose only titled item
sits inside products.edges[0].node yields no product at all — the code
takes payload.products (a non-array object) as the candidate container,
has no edge/node unwrapping, and normalizes to the empty list. -/
theorem normalise_edges_empty :
    normaliseProducts edgesPayload baseB = [] := by decide

/-- C3 amended: the container cascade takes the first non-nullish value
among .products, .items, .results, .data.products, .data and the payload
itself — not the first non-empty array: an empty .products array stops
the cascade even when .items holds a titled item, and a non-array
container yields no products.  A top-level array is found (through the
payload-itself fallback), as are .items, .results and .data.products. -/
theorem normalise_container_cascade :
    normaliseProducts (.obj [("products", .arr [titledItem]), ("items", .arr [otherItem])])
        baseB = [helmetNormB] ∧
    normaliseProducts (.obj [("products", .arr []), ("items", .arr [titledItem])]) baseB = [] ∧
    normaliseProducts (.obj [("items", .arr [titledItem])]) baseB = [helmetNormB] ∧
    normaliseProducts (.obj [("results", .arr [titledItem])]) baseB = [helmetNormB] ∧
    normaliseProducts (.obj [("data", .obj [("products", .arr [titledItem])])]) baseB
        = [helmetNormB] ∧
    normaliseProducts (.arr [titledItem]) baseB = [helmetNormB] := by decide

/-! ## C5 : excluded-without-required rejection -/

/-- C5: whenever some cleaned excluded term occurs in the lowered title
and no cleaned required term does, scoreTitle rejects the candidate, in
strict and non-strict mode alike. -/
theorem scoreTitle_excluded_rejects (title : String) (plan : IntentPlan) (strict : Bool)
    (hex : ∃ x ∈ toTerms plan.excluded_terms 12, strIncludes (strLower title) x = true)
    (hreq : ∀ r ∈ toTerms plan.required_terms 8, strIncludes (strLower title) r = false) :
    (scoreTitle title plan strict).2 = true := by
  unfold scoreTitle
  by_cases h0 : strLower title = ""
  · simp [h0]
  · rw [if_neg h0]
    simp only []
    have hx : (toTerms plan.excluded_terms 12).any
        (fun x => strIncludes (strLower title) x) = true := by
      obtain ⟨x, hxm, hxi⟩ := hex
      exact List.any_eq_true.mpr ⟨x, hxm, hxi⟩
    have hr : (toTerms plan.required_terms 8).any
        (fun r => strIncludes (strLower title) r) = false := by
      rw [List.any_eq_false]
      intro r hrm
      simp [hreq r hrm]
    split_ifs
    all_goals try rfl
    all_goals (exfalso; rename_i hcond; simp [hx, hr] at hcond)

/-- C5 witness: the title sun hat with excluded hat and required helmet
is rejected in non-strict mode. -/
theorem scoreTitle_excluded_rejects_witness :
    (scoreTitle "sun hat" planSunHat false).2 = true :=
  scoreTitle_excluded_rejects "sun hat" planSunHat false
    ⟨"hat", by decide, by decide⟩ (by decide)

/-! ## C7 : URL totality of the normalizer -/

/-- The last step of the URL resolution: whatever u2 was computed, the
result is the base or an http-prefixed string. -/
theorem urlFinalFallback (base u2 : String) :
    (if u2 = "" ∨ strStarts u2 "http" = false then base else u2) = base ∨
    strStarts (if u2 = "" ∨ strStarts u2 "http" = false then base else u2) "http" = true := by
  by_cases h : u2 = "" ∨ strStarts u2 "http" = false
  · left; rw [if_pos h]
  · right
    rw [if_neg h]
    push_neg at h
    cases hb : strStarts u2 "http"
    · exact absurd hb h.2
    · rfl

/-- resolveProductUrl always yields the base or an http-prefixed string. -/
theorem resolveProductUrl_cases (u0 handle base : String) :
    resolveProductUrl u0 handle base = base ∨
    strStarts (resolveProductUrl u0 handle base) "http" = true := by
  unfold resolveProductUrl
  exact urlFinalFallback base _

/-- An http-prefixed string is non-empty. -/
theorem strStarts_http_ne_empty (s : String) (h : strStarts s "http" = true) : s ≠ "" := by
  intro he
  subst he
  exact absurd h (by decide)

/-- C7: for every payload and non-empty base URL, every normalized
product carries a non-empty product URL that is http-prefixed or equal
to the base URL. -/
theorem normaliseProducts_url_total (payload : Json) (base : String) (hbase : base ≠ "") :
    ∀ p ∈ normaliseProducts payload base,
      p.productUrl ≠ "" ∧ (strStarts p.productUrl "http" = true ∨ p.productUrl = base) := by
  intro p hp
  unfold normaliseProducts at hp
  rw [List.mem_filterMap] at hp
  obtain ⟨a, _, ha⟩ := hp
  unfold extractProduct at ha
  simp only [] at ha
  split at ha
  · exact absurd ha (by simp)
  · rw [Option.some.injEq] at ha
    subst ha
    simp only []
    rcases resolveProductUrl_cases
        (firstNonEmptyString
          [(jsCoalesce (a.get "product") a).get "url",
            (jsCoalesce (a.get "product") a).get "productUrl",
            (jsCoalesce (a.get "product") a).get "product_url"])
        (firstNonEmptyString [(jsCoalesce (a.get "product") a).get "handle"]) base with h | h
    · exact ⟨by rw [h]; exact hbase, Or.inr h⟩
    · exact ⟨strStarts_http_ne_empty _ h, Or.inl h⟩

/-- A payload with a handle-only product for the URL witness. -/
def samplePayloadC7 : Json :=
  .obj [("products",
    .arr [.obj [("title", .str "Commuter Helmet"), ("handle", .str "commuter-helmet")]])]

/-- The normalized product of samplePayloadC7. -/
def sampleProdC7 : McpProduct :=
  ⟨"Commuter Helmet", "", "", "https://shop.example/products/commuter-helmet"⟩

/-- C7 witness: the URL-totality theorem applied to a concrete payload
and base URL. -/
theorem normaliseProducts_url_total_witness :
    sampleProdC7.productUrl ≠ "" ∧
      (strStarts sampleProdC7.productUrl "http" = true ∨
        sampleProdC7.productUrl = "https://shop.example") :=
  normaliseProducts_url_total samplePayloadC7 "https://shop.example" (by decide)
    sampleProdC7 (by decide)

/-! ## C8 : tool-selection priority -/

/-- The first element of a split list whose prefix all fails a predicate
and whose head satisfies it is what find? returns. -/
theorem find?_of_split {α : Type} (p : α → Bool) (pre : List α) (n : α) (post : List α)
    (hn : p n = true) (hpre : ∀ m ∈ pre, p m = false) :
    (pre ++ n :: post).find? p = some n := by
  induction pre with
  | nil => simp [List.find?_cons_of_pos, hn]
  | cons a pre ih =>
    rw [List.cons_append, List.find?_cons_of_neg, ih]
    · intro m hm
      exact hpre m (List.mem_cons_of_mem a hm)
    · simp [hpre a (List.mem_cons_self a pre)]

/-- C8: pickSearchTool follows the documented priority — the exact
well-known name whenever present anywhere in the list, else the first
strong (search and catalog/product/shop) name, else the first name
matching search, else none. -/
theorem pickSearchTool_priority (names : List String) :
    ("search_shop_catalog" ∈ names → pickSearchTool names = some "search_shop_catalog") ∧
    (∀ pre n post, names = pre ++ n :: post → "search_shop_catalog" ∉ names →
      isStrongName n = true → (∀ m ∈ pre, isStrongName m = false) →
      pickSearchTool names = some n) ∧
    (∀ pre n post, names = pre ++ n :: post → "search_shop_catalog" ∉ names →
      (∀ m ∈ names, isStrongName m = false) →
      isSearchName n = true → (∀ m ∈ pre, isSearchName m = false) →
      pickSearchTool names = some n) ∧
    ((∀ m ∈ names, isSearchName m = false) → pickSearchTool names = none) := by
  refine ⟨?_, ?_, ?_, ?_⟩
  · intro hmem
    unfold pickSearchTool
    rw [if_pos hmem]
  · intro pre n post hsplit hmem hn hpre
    unfold pickSearchTool
    rw [if_neg hmem, hsplit, find?_of_split isStrongName pre n post hn hpre]
  · intro pre n post hsplit hmem hstrong hn hpre
    unfold pickSearchTool
    rw [if_neg hmem]
    have hnone : names.find? isStrongName = none :=
      List.find?_eq_none.mpr (fun m hm => by simp [hstrong m hm])
    rw [hnone, hsplit, find?_of_split isSearchName pre n post hn hpre]
  · intro hall
    have hmem : "search_shop_catalog" ∉ names := by
      intro hm
      have := hall _ hm
      exact absurd this (by decide)
    unfold pickSearchTool
    rw [if_neg hmem]
    have hstrongnone : names.find? isStrongName = none :=
      List.find?_eq_none.mpr fun m hm => by
        have hs := hall m hm
        simp [isStrongName, hs]
    have hsearchnone : names.find? isSearchName = none :=
      List.find?_eq_none.mpr fun m hm => by simp [hall m hm]
    rw [hstrongnone, hsearchnone]

/-- C8 witness: the priority theorem applied to concrete tool lists that
exercise all four tiers. -/
theorem pickSearchTool_priority_witness :
    pickSearchTool ["alpha_tool", "search_shop_catalog"] = some "search_shop_catalog" ∧
    pickSearchTool ["alpha_tool", "find_search_products"] = some "find_search_products" ∧
    pickSearchTool ["alpha_tool", "search_anything"] = some "search_anything" ∧
    pickSearchTool ["alpha_tool", "beta_tool"] = none :=
  ⟨(pickSearchTool_priority _).1 (by decide),
   (pickSearchTool_priority _).2.1 ["alpha_tool"] "find_search_products" [] rfl (by decide)
     (by decide) (by decide),
   (pickSearchTool_priority _).2.2.1 ["alpha_tool"] "search_anything" [] rfl (by decide)
     (by decide) (by decide) (by decide),
   (pickSearchTool_priority _).2.2.2 (by decide)⟩

/-! ## C4 amended : strict exclusivity at the scorer level -/

/-- Whatever the fold of pickBestProduct returns is the initial best or
a non-rejected member of the list. -/
theorem pickBestGo_sound (plan : IntentPlan) (strict : Bool) :
    ∀ (l : List McpProduct) (best : Option McpProduct) (sc : Int) (p : McpProduct),
      pickBestGo plan strict l best sc = some p →
      best = some p ∨ (p ∈ l ∧ (scoreTitle p.title plan strict).2 = false) := by
  intro l
  induction l with
  | nil =>
    intro best sc p h
    exact Or.inl h
  | cons q rest ih =>
    intro best sc p h
    unfold pickBestGo at h
    simp only [] at h
    split_ifs at h with hrej hgt
    · rcases ih best sc p h with h1 | ⟨h2, h3⟩
      · exact Or.inl h1
      · exact Or.inr ⟨List.mem_cons_of_mem q h2, h3⟩
    · rcases ih (some q) _ p h with h1 | ⟨h2, h3⟩
      · rw [Option.some.injEq] at h1
        subst h1
        refine Or.inr ⟨List.mem_cons_self q rest, ?_⟩
        cases hr : (scoreTitle q.title plan strict).2
        · rfl
        · exact absurd hr hrej
      · exact Or.inr ⟨List.mem_cons_of_mem q h2, h3⟩
    · rcases ih best sc p h with h1 | ⟨h2, h3⟩
      · exact Or.inl h1
      · exact Or.inr ⟨List.mem_cons_of_mem q h2, h3⟩

/-- C4 amended: at the scorer level, with requiredTerms = [helmet] and
strict mode, a product pickBestProduct returns always has helmet in its
lowered title (the orchestrator-level claim fails through the raw
fallback, see the counterexample). -/
theorem pickBestProduct_strict_helmet (ps : List McpProduct) (plan : IntentPlan)
    (p : McpProduct) (hplan : plan.required_terms = ["helmet"])
    (hpick : pickBestProduct ps plan true = some p) :
    strIncludes (strLower p.title) "helmet" = true := by
  unfold pickBestProduct at hpick
  split_ifs at hpick
  rcases pickBestGo_sound plan true ps none (-999) p hpick with h1 | ⟨_, hrej⟩
  · exact absurd h1 (by simp)
  · have hterms : toTerms plan.required_terms 8 = ["helmet"] := by
      rw [hplan]; decide
    unfold scoreTitle at hrej
    simp only [] at hrej
    rw [hterms] at hrej
    split_ifs at hrej with h0 hA
    all_goals try (simp at hrej)
    all_goals cases hi : strIncludes (strLower p.title) "helmet"
    all_goals try rfl
    all_goals (exfalso; apply hA; simp [hi])

/-- C4 witness: the scorer-level theorem applied to a concrete product
list where the strict pass picks the helmet product. -/
theorem pickBestProduct_strict_helmet_witness :
    strIncludes (strLower "Commuter Helmet, Matte Black") "helmet" = true :=
  pickBestProduct_strict_helmet [visorProd, helmetProd] planHelmet helmetProd rfl (by decide)

/-! ## C2 : failure isolation in the sequential orchestrator -/

/-- A search result representing a captured failure. -/
def badRes : SearchRes := ⟨false, [], none, some "No tools/list response"⟩

/-- The three-store pool in which the second store's call throws. -/
def seqStoresAbort : List (String × Except String SearchRes) :=
  [("s1", .ok helmetRes), ("s2", .error "AbortError"), ("s3", .ok helmetRes)]

/-- C2 counterexample: with the first store accepted, a thrown timeout
on the second store aborts the whole sequential loop — the third store
is never processed and the already-accepted offer is discarded, leaving
the mock offers in the thread. -/
theorem seq_throw_discards_offers :
    seqAcquire [("s1", Except.ok helmetRes)] none = .ok [mkOffer "s1" helmetProd] ∧
    seqAcquire seqStoresAbort none = .error "AbortError" ∧
    threadOffers [⟨"mock_seller", "Mock offer", "", "#"⟩] seqStoresAbort none =
      [⟨"mock_seller", "Mock offer", "", "#"⟩] :=
  ⟨rfl, rfl, rfl⟩

/-- The loop ignores a store whose failure was captured as a value
(ok = false): the final state is as if the store were absent. -/
theorem seqGo_skip_value_failure (key : Option String) (sid : String) (r : SearchRes)
    (hr : r.ok = false) :
    ∀ (pre post : List (String × Except String SearchRes)) (acc : List OfferLite),
      seqGo key (pre ++ (sid, Except.ok r) :: post) acc = seqGo key (pre ++ post) acc := by
  intro pre
  induction pre with
  | nil =>
    intro post acc
    rw [List.nil_append, List.nil_append]
    by_cases h3 : 3 ≤ acc.length
    · simp only [seqGo]
      rw [if_pos h3]
      cases post with
      | nil => rfl
      | cons b rest =>
        rcases b with ⟨bsid, bout⟩
        simp only [seqGo]
        rw [if_pos h3]
    · simp only [seqGo]
      rw [if_neg h3]
      rw [if_pos (show (!r.ok || r.products.isEmpty) = true from by rw [hr]; simp)]
  | cons a pre ih =>
    intro post acc
    rcases a with ⟨asid, aout⟩
    rw [List.cons_append, List.cons_append]
    cases aout with
    | error e => simp only [seqGo]
    | ok ar =>
      simp only [seqGo]
      by_cases h3 : 3 ≤ acc.length
      · rw [if_pos h3, if_pos h3]
      · rw [if_neg h3, if_neg h3]
        by_cases hskip : (!ar.ok || ar.products.isEmpty) = true
        · rw [if_pos hskip, if_pos hskip]
          exact ih post acc
        · rw [if_neg hskip, if_neg hskip]
          cases hp : ar.products with
          | nil =>
            dsimp only
            exact ih post acc
          | cons p0 ps =>
            dsimp only
            by_cases hu :
                (!isUsableLiveProduct
                  ((List.find? (fun p => matchesKeyWord p.title key) (p0 :: ps)).getD p0)) = true
            · rw [if_pos hu, if_pos hu]
              exact ih post acc
            · rw [if_neg hu, if_neg hu]
              exact ih post _

/-- When no store call throws, the loop always finishes with a value:
the remaining endpoints are processed and the accumulated offers kept. -/
theorem seqGo_total (key : Option String) :
    ∀ (stores : List (String × Except String SearchRes)) (acc : List OfferLite),
      (∀ x ∈ stores, ∃ r, x.2 = Except.ok r) →
      ∃ live, seqGo key stores acc = .ok live := by
  intro stores
  induction stores with
  | nil =>
    intro acc _
    exact ⟨acc, rfl⟩
  | cons a rest ih =>
    intro acc hok
    rcases a with ⟨asid, aout⟩
    obtain ⟨ar, har⟩ := hok _ (List.mem_cons_self _ _)
    simp only [] at har
    subst har
    have hrest : ∀ x ∈ rest, ∃ r, x.2 = Except.ok r :=
      fun x hx => hok x (List.mem_cons_of_mem _ hx)
    simp only [seqGo]
    by_cases h3 : 3 ≤ acc.length
    · rw [if_pos h3]
      exact ⟨acc, rfl⟩
    · rw [if_neg h3]
      by_cases hskip : (!ar.ok || ar.products.isEmpty) = true
      · rw [if_pos hskip]
        exact ih acc hrest
      · rw [if_neg hskip]
        cases hp : ar.products with
        | nil =>
          dsimp only
          exact ih acc hrest
        | cons p0 ps =>
          dsimp only
          by_cases hu :
              (!isUsableLiveProduct
                ((List.find? (fun p => matchesKeyWord p.title key) (p0 :: ps)).getD p0)) = true
          · rw [if_pos hu]
            exact ih acc hrest
          · rw [if_neg hu]
            exact ih _ hrest

/-- C2 amended: a per-endpoint failure that mcpSearchProducts captures
as a value (ok = false: malformed response, no matching tool, HTTP
error) never aborts the sequential acquisition and loses only that
endpoint's contribution; and whenever no call throws, the loop returns
a value.  A thrown transport error or timeout, by contrast, aborts the
loop (see the counterexample). -/
theorem seq_value_failure_isolated :
    (∀ (stores : List (String × Except String SearchRes)) (key : Option String),
      (∀ x ∈ stores, ∃ r, x.2 = Except.ok r) →
      ∃ live, seqAcquire stores key = .ok live) ∧
    (∀ (pre post : List (String × Except String SearchRes)) (sid : String) (r : SearchRes)
      (key : Option String), r.ok = false →
      seqAcquire (pre ++ (sid, Except.ok r) :: post) key = seqAcquire (pre ++ post) key) :=
  ⟨fun stores key hok => seqGo_total key stores [] hok,
   fun pre post sid r key hr => seqGo_skip_value_failure key sid r hr pre post []⟩

/-- C2 amended witness: the isolation theorem applied to a concrete pool
with one captured failure between two successes. -/
theorem seq_value_failure_isolated_witness :
    (∃ live, seqAcquire [("s1", Except.ok helmetRes), ("s2", Except.ok badRes)] none
        = .ok live) ∧
    seqAcquire ([("s1", Except.ok helmetRes)] ++ ("s2", Except.ok badRes) :: [("s3", Except.ok helmetRes)]) none =
      seqAcquire ([("s1", Except.ok helmetRes)] ++ [("s3", Except.ok helmetRes)]) none :=
  ⟨seq_value_failure_isolated.1 _ none (by
      intro x hx
      rcases List.mem_cons.mp hx with h | h
      · exact ⟨helmetRes, by rw [h]⟩
      · rw [List.mem_singleton] at h
        exact ⟨badRes, by rw [h]⟩),
   seq_value_failure_isolated.2 [("s1", Except.ok helmetRes)] [("s3", Except.ok helmetRes)]
     "s2" badRes none rfl⟩

/-! ## C1 : exception propagation in the remote tool client -/

/-- C1 counterexample: a thrown transport failure (for instance the
AbortError of the hard timeout) propagates out of mcpToolsList and out
of mcpSearchProducts as an exception — mcpPost has try/finally with no
catch and neither caller catches — instead of being absorbed into an
empty list or a failed result. -/
theorem mcp_throw_propagates :
    mcpToolsList parseNone (.thrown "AbortError") = .error "AbortError" ∧
    mcpSearchProducts parseNone "https://s.example" "helmet" (.thrown "AbortError") []
      = .error "AbortError" :=
  ⟨rfl, rfl⟩

/-- The attempt loop never throws when every underlying call yields a
response rather than a rejection. -/
theorem searchAttempts_total (parse : String → Option Json) (base : String) :
    ∀ callTs : List Transport,
      (∀ t ∈ callTs, ∃ ok status text, t = Transport.resp ok status text) →
      ∃ v, searchAttempts parse base callTs = .ok v := by
  intro callTs
  induction callTs with
  | nil =>
    intro _
    exact ⟨[], rfl⟩
  | cons t rest ih =>
    intro hresp
    obtain ⟨ok, status, text, ht⟩ := hresp t (List.mem_cons_self _ _)
    subst ht
    have hrest : ∀ t ∈ rest, ∃ ok status text, t = Transport.resp ok status text :=
      fun t ht => hresp t (List.mem_cons_of_mem _ ht)
    simp only [searchAttempts, mcpPost, bind, Except.bind]
    by_cases h1 : (!ok || !jsTruthy ((parse text).getD Json.null)) = true
    · rw [if_pos h1]
      exact ih hrest
    · rw [if_neg h1]
      by_cases h2 :
          jsTruthy ((jsCoalesce (((parse text).getD Json.null).get "result")
            ((parse text).getD Json.null)).get "isError") = true
      · rw [if_pos h2]
        exact ih hrest
      · rw [if_neg h2]
        by_cases h3 :
            (normaliseProducts
              (extractPayload parse ((parse text).getD Json.null)) base).isEmpty = true
        · rw [if_pos h3]
          exact ih hrest
        · rw [if_neg h3]
          exact ⟨_, rfl⟩

/-- The name extraction succeeds exactly on arrays without null
entries. -/
theorem mapToolNames_total :
    ∀ xs : List Json, Json.null ∉ xs → ∃ ns, mapToolNames xs = .ok ns := by
  intro xs
  induction xs with
  | nil =>
    intro _
    exact ⟨[], rfl⟩
  | cons t rest ih =>
    intro hnull
    have ht : t ≠ Json.null := fun h => hnull (h ▸ List.mem_cons_self t rest)
    obtain ⟨ns, hns⟩ := ih fun h => hnull (List.mem_cons_of_mem t h)
    cases t with
    | null => exact absurd rfl ht
    | bool b => simp only [mapToolNames]; rw [hns]; exact ⟨_, rfl⟩
    | num q => simp only [mapToolNames]; rw [hns]; exact ⟨_, rfl⟩
    | str s => simp only [mapToolNames]; rw [hns]; exact ⟨_, rfl⟩
    | arr ys => simp only [mapToolNames]; rw [hns]; exact ⟨_, rfl⟩
    | obj fs => simp only [mapToolNames]; rw [hns]; exact ⟨_, rfl⟩

/-- A parse oracle whose body discovers a tools array holding one null
entry. -/
def parseToolsNull : String → Option Json :=
  fun _ => some (.obj [("result", .obj [("tools", .arr [Json.null])])])

/-- C1 amended: when the transport yields responses instead of
rejections, mcpToolsList never throws (malformed or non-ok bodies give
the empty list), and mcpSearchProducts never throws provided the
discovered tools value is an array without null entries or fails the
length check: every captured failure comes back as a value, with
ok = false and an error string.  Thrown transport outcomes, by
contrast, propagate (see the counterexample), and so do the TypeErrors
of tools.map on a truthy non-array tools value and of the plain
property access t.name on a null tools entry — the last conjunct
exhibits the null-entry throw. -/
theorem mcp_resp_never_throws :
    (∀ (parse : String → Option Json) (ok : Bool) (status : Nat) (text : String),
      ∃ v, mcpToolsList parse (.resp ok status text) = .ok v) ∧
    (∀ (parse : String → Option Json) (base q : String) (ok : Bool) (status : Nat)
      (text : String) (callTs : List Transport) (tools : Json),
      mcpToolsList parse (.resp ok status text) = .ok tools →
      ((∃ xs, tools = Json.arr xs ∧ Json.null ∉ xs) ∨ jsLengthTruthy tools = false) →
      (∀ t ∈ callTs, ∃ ok2 status2 text2, t = Transport.resp ok2 status2 text2) →
      ∃ res, mcpSearchProducts parse base q (.resp ok status text) callTs = .ok res) ∧
    mcpSearchProducts parseToolsNull "https://s.example" "helmet" (.resp true 200 "x") []
      = .error "TypeError: Cannot read properties of null (reading name)" := by
  refine ⟨?_, ?_, rfl⟩
  · intro parse ok status text
    simp only [mcpToolsList, mcpPost, bind, Except.bind]
    by_cases h : (!ok ||
        !jsTruthy ((((parse text).getD Json.null).get "result").get "tools")) = true
    · rw [if_pos h]
      exact ⟨_, rfl⟩
    · rw [if_neg h]
      exact ⟨_, rfl⟩
  · intro parse base q ok status text callTs tools htools hshape hcalls
    unfold mcpSearchProducts
    rw [htools]
    simp only [bind, Except.bind]
    by_cases hlen : (!jsLengthTruthy tools) = true
    · rw [if_pos hlen]
      exact ⟨_, rfl⟩
    · rw [if_neg hlen]
      rcases hshape with ⟨xs, hxs, hnull⟩ | hfl
      · subst hxs
        simp only []
        obtain ⟨ns, hns⟩ := mapToolNames_total xs hnull
        rw [hns]
        simp only [bind, Except.bind]
        cases hpick : pickSearchTool ns with
        | none => exact ⟨_, rfl⟩
        | some toolName =>
          obtain ⟨v, hv⟩ := searchAttempts_total parse base callTs hcalls
          rw [hv]
          simp only []
          by_cases hemp : v.isEmpty = true
          · rw [if_pos hemp]
            exact ⟨_, rfl⟩
          · rw [if_neg hemp]
            exact ⟨_, rfl⟩
      · exfalso
        rw [hfl] at hlen
        exact hlen rfl

/-- C1 amended witness: a garbage body — the oracle parses it to
nothing — yields a value (the empty tool list and a failed search
result), not an exception. -/
theorem mcp_resp_never_throws_witness :
    (∃ v, mcpToolsList parseNone (.resp true 200 "garbage") = .ok v) ∧
    (∃ res, mcpSearchProducts parseNone "https://s.example" "helmet"
        (.resp true 200 "garbage") [] = .ok res) :=
  ⟨mcp_resp_never_throws.1 parseNone true 200 "garbage",
   mcp_resp_never_throws.2.1 parseNone "https://s.example" "helmet" true 200 "garbage" []
     (.arr []) rfl (Or.inl ⟨[], rfl, List.not_mem_nil Json.null⟩)
     (fun t ht => absurd ht (List.not_mem_nil t))⟩

/-! ## C9 amended : one diagnostics entry per endpoint per pass -/

/-- Each processed item contributes exactly one debug entry. -/
theorem stepItem_diags (strict : Bool) (plan : Option IntentPlan) (item : Settled)
    (st : OrchState) :
    (stepItem strict plan item st).diags = st.diags ++ [diagEntryOf strict item] := by
  cases item with
  | rejected => rfl
  | fulfilled sid r =>
    simp only [stepItem]
    by_cases h1 : (!r.ok || r.products.isEmpty) = true
    · rw [if_pos h1]
    · rw [if_neg h1]
      cases hp : r.products with
      | nil => rfl
      | cons p0 ps => rfl

/-- A pass that ends below the target processed every item, adding one
entry per item: the per-store count grows by the per-store fulfilled
count. -/
theorem runPass_diag (strict : Bool) (plan : Option IntentPlan) (sid : String) :
    ∀ (results : List Settled) (st : OrchState),
      (runPass strict plan results st).offers.length < 3 →
      diagCountFor sid (runPass strict plan results st).diags =
        diagCountFor sid st.diags + fulfilledCountFor sid results := by
  intro results
  induction results with
  | nil =>
    intro st _
    simp [runPass, fulfilledCountFor, diagCountFor]
  | cons item rest ih =>
    intro st h
    simp only [runPass] at h ⊢
    by_cases h3 : 3 ≤ st.offers.length
    · rw [if_pos h3] at h
      omega
    · rw [if_neg h3] at h ⊢
      rw [ih (stepItem strict plan item st) h, stepItem_diags]
      cases item with
      | rejected =>
        simp [diagCountFor, fulfilledCountFor, List.countP_append, List.countP_cons,
          diagEntryOf]
      | fulfilled s r =>
        simp only [diagCountFor, fulfilledCountFor, List.countP_append, List.countP_cons,
          List.countP_nil, diagEntryOf]
        by_cases hs : (s == sid) = true
        · simp [hs]
          omega
        · simp [hs]

/-- C9 amended: when both passes complete (the run ends with fewer than
three offers), every fulfilled endpoint appears exactly once per pass in
the diagnostics — hence exactly twice overall, not exactly once; an
endpoint is skipped entirely by a pass once the target was reached
earlier in that pass. -/
theorem twoPass_diag_per_pass (plan : Option IntentPlan) (results : List Settled)
    (sid : String) (h : (runTwoPass plan results).offers.length < 3) :
    diagCountFor sid (runTwoPass plan results).diags = 2 * fulfilledCountFor sid results := by
  unfold runTwoPass at h ⊢
  by_cases h3 : 3 ≤ (runPass true plan results ⟨[], []⟩).offers.length
  · rw [if_pos h3] at h
    omega
  · rw [if_neg h3] at h ⊢
    push_neg at h3
    rw [runPass_diag false plan sid results (runPass true plan results ⟨[], []⟩) h,
      runPass_diag true plan sid results ⟨[], []⟩ h3]
    simp [diagCountFor]
    omega

/-- C9 amended witness: the per-pass count theorem applied to the
one-endpoint pool on which both passes run. -/
theorem twoPass_diag_per_pass_witness :
    diagCountFor "storeB" (runTwoPass (some planHelmet) resultsOneStore).diags =
      2 * fulfilledCountFor "storeB" resultsOneStore :=
  twoPass_diag_per_pass (some planHelmet) resultsOneStore "storeB" (by decide)

/-! ## C6 : price formatting -/

/-- Math.round of an exact integer is that integer. -/
theorem jsRound_intCast (n : ℤ) : jsRound (n : ℚ) = n := by
  unfold jsRound
  rw [add_comm, Int.floor_add_int]
  norm_num

/-- An exact integer renders without decimals. -/
theorem jsAmountStr_intCast (n : ℤ) : jsAmountStr (n : ℚ) = toString n := by
  unfold jsAmountStr
  rw [jsRound_intCast, if_pos]
  rw [sub_self]
  show (if (0 : ℚ) < 0 then -(0 : ℚ) else 0) < 1 / 1000000000
  norm_num

/-- The string coercion of a string value is the string itself. -/
theorem jsStringOrEmpty_str (c : String) : jsStringOrEmpty (.str c) = c := by
  by_cases h : c = "" <;>
    simp [jsStringOrEmpty, jsTruthy, jsCoerceStr, beq_iff_eq, h]

/-- formatPrice on an exact integer amount and GBP: pound prefix, no
decimals. -/
theorem formatPrice_gbp_int (n : ℤ) :
    formatPrice (.num (n : ℚ)) (.str "GBP") = "£" ++ toString n := by
  unfold formatPrice
  simp only []
  rw [show strTrim (strUpper (jsStringOrEmpty (.str "GBP"))) = "GBP" from by decide]
  unfold formatAmount
  simp only []
  rw [show toCurrencySymbol "GBP" = "£" from by decide]
  rw [if_pos (by decide : ("£" : String) ≠ "")]
  rw [jsAmountStr_intCast]

/-- formatPrice on a non-integer amount (outside the 1e-9 tolerance) and
GBP: pound prefix and the two-decimal rendering. -/
theorem formatPrice_gbp_frac (q : ℚ)
    (hni : ¬ jsAbs (q - (jsRound q : ℚ)) < 1 / 1000000000) :
    formatPrice (.num q) (.str "GBP") = "£" ++ toFixed2 q := by
  unfold formatPrice
  simp only []
  rw [show strTrim (strUpper (jsStringOrEmpty (.str "GBP"))) = "GBP" from by decide]
  unfold formatAmount
  simp only []
  rw [show toCurrencySymbol "GBP" = "£" from by decide]
  rw [if_pos (by decide : ("£" : String) ≠ "")]
  unfold jsAmountStr
  rw [if_neg hni]

/-- toFixed2 of a nonnegative rational ends in a dot followed by exactly
two digits. -/
theorem toFixed2_two_decimals (q : ℚ) (hq : 0 ≤ q) :
    ∃ pre d, toFixed2 q = pre ++ "." ++ d ∧ d.length = 2 := by
  unfold toFixed2
  rw [if_neg (not_lt.mpr hq)]
  exact ⟨toString ((⌊q * 100 + 1 / 2⌋).toNat / 100), twoDigits ((⌊q * 100 + 1 / 2⌋).toNat % 100),
    rfl, rfl⟩

/-- formatPrice with an unknown (symbol-less), non-empty currency code:
the upper-cased trimmed code, a space, then the amount rendering. -/
theorem formatPrice_unknown_code (q : ℚ) (c : String)
    (h1 : toCurrencySymbol (strTrim (strUpper c)) = "")
    (h2 : strTrim (strUpper c) ≠ "") :
    formatPrice (.num q) (.str c) = strTrim (strUpper c) ++ " " ++ jsAmountStr q := by
  unfold formatPrice
  simp only []
  rw [jsStringOrEmpty_str]
  unfold formatAmount
  simp only []
  rw [h1]
  rw [if_neg (by simp : ¬("" : String) ≠ "")]
  rw [if_pos h2]

/-- The 259/2 amount misses the integer tolerance. -/
theorem frac_259_2_not_int :
    ¬ jsAbs ((259 : ℚ) / 2 - (jsRound ((259 : ℚ) / 2) : ℚ)) < 1 / 1000000000 := by
  rw [show jsRound ((259 : ℚ) / 2) = 130 from by unfold jsRound; norm_num]
  unfold jsAbs
  norm_num

/-- The nonnegativity fact for the two-decimal witness. -/
theorem nonneg_259_2 : (0 : ℚ) ≤ 259 / 2 := by norm_num

/-- C6: formatPrice renders whole amounts without decimals and
fractional amounts with exactly two decimals, prefixes £, €, $ for GBP,
EUR, USD and otherwise the upper-cased code plus a space; in
particular (129, GBP) gives £129, (129.5, GBP) gives £129.50 and
(50, XYZ) gives XYZ 50. -/
theorem formatPrice_rules :
    formatPrice (.num 129) (.str "GBP") = "£129" ∧
    formatPrice (.num (259 / 2)) (.str "GBP") = "£129.50" ∧
    formatPrice (.num 50) (.str "XYZ") = "XYZ 50" ∧
    formatPrice (.num 5) (.str "EUR") = "€5" ∧
    formatPrice (.num 5) (.str "USD") = "$5" ∧
    (∀ n : ℤ, formatPrice (.num (n : ℚ)) (.str "GBP") = "£" ++ toString n) ∧
    (∀ q : ℚ, ¬ jsAbs (q - (jsRound q : ℚ)) < 1 / 1000000000 →
      formatPrice (.num q) (.str "GBP") = "£" ++ toFixed2 q) ∧
    (∀ q : ℚ, 0 ≤ q → ∃ pre d, toFixed2 q = pre ++ "." ++ d ∧ d.length = 2) ∧
    (∀ (q : ℚ) (c : String), toCurrencySymbol (strTrim (strUpper c)) = "" →
      strTrim (strUpper c) ≠ "" →
      formatPrice (.num q) (.str c) = strTrim (strUpper c) ++ " " ++ jsAmountStr q) := by
  refine ⟨?_, ?_, ?_, ?_, ?_, formatPrice_gbp_int, formatPrice_gbp_frac,
    toFixed2_two_decimals, formatPrice_unknown_code⟩
  · have h := formatPrice_gbp_int 129
    rw [show ((129 : ℤ) : ℚ) = (129 : ℚ) from by norm_num] at h
    rw [h]
    decide
  · have h := formatPrice_gbp_frac (259 / 2) frac_259_2_not_int
    rw [h]
    have h3 : toFixed2 ((259 : ℚ) / 2) = "129.50" := by
      unfold toFixed2
      rw [if_neg (by norm_num : ¬ (259 : ℚ) / 2 < 0)]
      unfold toFixed2NN
      rw [show ⌊(259 : ℚ) / 2 * 100 + 1 / 2⌋ = (12950 : ℤ) from by norm_num]
      decide
    rw [h3]
    decide
  · have h := formatPrice_unknown_code 50 "XYZ" (by decide) (by decide)
    rw [h]
    rw [show (50 : ℚ) = ((50 : ℤ) : ℚ) from by norm_num, jsAmountStr_intCast]
    decide
  · unfold formatPrice
    simp only []
    rw [show strTrim (strUpper (jsStringOrEmpty (.str "EUR"))) = "EUR" from by decide]
    unfold formatAmount
    simp only []
    rw [show toCurrencySymbol "EUR" = "€" from by decide]
    rw [if_pos (by decide : ("€" : String) ≠ "")]
    rw [show (5 : ℚ) = ((5 : ℤ) : ℚ) from by norm_num, jsAmountStr_intCast]
    decide
  · unfold formatPrice
    simp only []
    rw [show strTrim (strUpper (jsStringOrEmpty (.str "USD"))) = "USD" from by decide]
    unfold formatAmount
    simp only []
    rw [show toCurrencySymbol "USD" = "$" from by decide]
    rw [if_pos (by decide : ("$" : String) ≠ "")]
    rw [show (5 : ℚ) = ((5 : ℤ) : ℚ) from by norm_num, jsAmountStr_intCast]
    decide

/-- C6 witness: the rule conjunction applied at concrete integer,
fractional and unknown-code inputs. -/
theorem formatPrice_rules_witness :
    formatPrice (.num ((7 : ℤ) : ℚ)) (.str "GBP") = "£" ++ toString (7 : ℤ) ∧
    formatPrice (.num ((259 : ℚ) / 2)) (.str "GBP") = "£" ++ toFixed2 ((259 : ℚ) / 2) ∧
    (∃ pre d, toFixed2 ((259 : ℚ) / 2) = pre ++ "." ++ d ∧ d.length = 2) ∧
    formatPrice (.num (3 : ℚ)) (.str " xyz ") =
      strTrim (strUpper " xyz ") ++ " " ++ jsAmountStr 3 :=
  ⟨formatPrice_rules.2.2.2.2.2.1 7,
   formatPrice_rules.2.2.2.2.2.2.1 (259 / 2) frac_259_2_not_int,
   formatPrice_rules.2.2.2.2.2.2.2.1 (259 / 2) nonneg_259_2,
   formatPrice_rules.2.2.2.2.2.2.2.2 3 " xyz " (by decide) (by decide)⟩
